import Mathlib

/-!
Verification development for the versioned binary artifact manager
(`src-tauri/src/binaries/binaries_manager.rs`).

The Rust source is shallowly embedded: pure functions become Lean
functions; filesystem- and network-effecting code becomes explicit state
passing over a path-set filesystem model together with an environment
record of outcomes for the external collaborators (adapter, request
client, extraction and checksum utilities).  Machine integers of the
source are `Nat` (no overflowing arithmetic occurs in the modelled code).
-/

namespace Universe

/-! ## SemVer model (subset of the `semver` crate used by the manager)

A `Version` is major.minor.patch plus an optional prerelease tag, the
prerelease stored as its raw string exactly as in `semver::Prerelease`
(empty string = no prerelease).  Build metadata is omitted: the spec's
data model ("major.minor.patch plus optional prerelease tag") has none
and no claim mentions it. -/

structure Version where
  major : Nat
  minor : Nat
  patch : Nat
  pre : String
deriving DecidableEq, Repr

def versionZero : Version := ⟨0, 0, 0, ""⟩

/-- Lexicographic comparison of identifier character lists, mirroring
`Ord::cmp` on `&str` restricted to ASCII identifiers. -/
def strCmpL : List Char → List Char → Ordering
  | [], [] => .eq
  | [], _ :: _ => .lt
  | _ :: _, [] => .gt
  | a :: as, b :: bs => (compare a b).then (strCmpL as bs)

def isAsciiDigitCh (c : Char) : Bool := decide ('0' ≤ c) && decide (c ≤ '9')

/-- One prerelease identifier comparison, per `semver`'s `Ord for
Prerelease`: numeric identifiers sort below alphanumeric ones, numeric
identifiers compare by length then lexicographically. -/
def idCmp (a b : List Char) : Ordering :=
  match a.all isAsciiDigitCh, b.all isAsciiDigitCh with
  | true, true => (compare a.length b.length).then (strCmpL a b)
  | true, false => .lt
  | false, true => .gt
  | false, false => strCmpL a b

/-- Dot-separated identifier list comparison: shorter list of equal
leading identifiers sorts lower. -/
def idsCmp : List (List Char) → List (List Char) → Ordering
  | [], [] => .eq
  | [], _ :: _ => .lt
  | _ :: _, [] => .gt
  | a :: as, b :: bs => (idCmp a b).then (idsCmp as bs)

/-- `semver::Prerelease` ordering: an empty prerelease (a real release)
is greater than any non-empty one; otherwise identifiers are compared. -/
def preCmp (a b : String) : Ordering :=
  if a == "" then (if b == "" then .eq else .gt)
  else if b == "" then .lt
  else idsCmp ((a.splitOn ".").map String.toList) ((b.splitOn ".").map String.toList)

/-- `semver::Version` precedence: major, minor, patch, then prerelease. -/
def versionCmp (a b : Version) : Ordering :=
  (compare a.major b.major).then
    ((compare a.minor b.minor).then
      ((compare a.patch b.patch).then (preCmp a.pre b.pre)))

/-- `Ord::max` as used by `Version::max` in `select_highest_version`:
returns the second argument when the two compare equal. -/
def versionMax (a b : Version) : Version :=
  match versionCmp a b with
  | .gt => a
  | _ => b

def versionLe (a b : Version) : Prop := versionCmp a b ≠ .gt

instance (a b : Version) : Decidable (versionLe a b) := by
  unfold versionLe; infer_instance

/-- `Display for semver::Version` restricted to the modelled fields:
`major.minor.patch` followed by `-pre` when a prerelease is present. -/
def versionToString (v : Version) : String :=
  toString v.major ++ "." ++ toString v.minor ++ "." ++ toString v.patch
    ++ (if v.pre == "" then "" else "-" ++ v.pre)

/-! ### Version requirements (`semver::VersionReq`)

A requirement is a list of comparators, evaluated per the crate's
`eval.rs`.  `VersionReq::default()` is the empty comparator list
(the `*` requirement). -/

inductive ReqOp where
  | exact
  | greater
  | greaterEq
  | less
  | lessEq
  | tilde
  | caret
  | wildcard
deriving DecidableEq, Repr

structure Comparator where
  op : ReqOp
  major : Nat
  minor : Option Nat
  patch : Option Nat
  pre : String
deriving DecidableEq, Repr

abbrev VersionReq := List Comparator

def defaultVersionReq : VersionReq := []

def matchesExact (c : Comparator) (v : Version) : Bool :=
  v.major == c.major
    && (match c.minor with | none => true | some mn => v.minor == mn)
    && (match c.patch with | none => true | some pt => v.patch == pt)
    && v.pre == c.pre

def matchesGreater (c : Comparator) (v : Version) : Bool :=
  if v.major != c.major then decide (v.major > c.major)
  else match c.minor with
    | none => false
    | some mn =>
      if v.minor != mn then decide (v.minor > mn)
      else match c.patch with
        | none => false
        | some pt =>
          if v.patch != pt then decide (v.patch > pt)
          else preCmp v.pre c.pre == .gt

def matchesLess (c : Comparator) (v : Version) : Bool :=
  if v.major != c.major then decide (v.major < c.major)
  else match c.minor with
    | none => false
    | some mn =>
      if v.minor != mn then decide (v.minor < mn)
      else match c.patch with
        | none => false
        | some pt =>
          if v.patch != pt then decide (v.patch < pt)
          else preCmp v.pre c.pre == .lt

def matchesTilde (c : Comparator) (v : Version) : Bool :=
  if v.major != c.major then false
  else
    (match c.minor with | none => true | some mn => v.minor == mn)
    && (match c.patch with
        | none => preCmp v.pre c.pre != .lt
        | some pt => if v.patch != pt then decide (v.patch > pt)
                     else preCmp v.pre c.pre != .lt)
  -- the crate's final `ver.pre >= cmp.pre` is evaluated whenever no
  -- early return fired: with an unequal patch the `v.patch != pt` test
  -- already returned, and with no patch component it applies directly

def matchesCaret (c : Comparator) (v : Version) : Bool :=
  if v.major != c.major then false
  else match c.minor with
    | none => true
    | some mn =>
      match c.patch with
      | none =>
        if c.major > 0 then decide (v.minor ≥ mn) else v.minor == mn
      | some pt =>
        if c.major > 0 then
          if v.minor != mn then decide (v.minor > mn)
          else if v.patch != pt then decide (v.patch > pt)
          else preCmp v.pre c.pre != .lt
        else if mn > 0 then
          if v.minor != mn then false
          else if v.patch != pt then decide (v.patch > pt)
          else preCmp v.pre c.pre != .lt
        else if v.minor != mn || v.patch != pt then false
        else preCmp v.pre c.pre != .lt

def matchesImpl (c : Comparator) (v : Version) : Bool :=
  match c.op with
  | .exact | .wildcard => matchesExact c v
  | .greater => matchesGreater c v
  | .greaterEq => matchesExact c v || matchesGreater c v
  | .less => matchesLess c v
  | .lessEq => matchesExact c v || matchesLess c v
  | .tilde => matchesTilde c v
  | .caret => matchesCaret c v

def preIsCompatible (c : Comparator) (v : Version) : Bool :=
  c.major == v.major && c.minor == some v.minor && c.patch == some v.patch
    && c.pre != ""

/-- `VersionReq::matches` per `semver`'s `eval.rs::matches_req`: all
comparators must match, and a version carrying a prerelease tag is only
accepted when some comparator with the same major.minor.patch also has a
prerelease tag. -/
def matchesReq (req : VersionReq) (v : Version) : Bool :=
  if req.all (fun c => matchesImpl c v) then
    if v.pre == "" then true
    else req.any (fun c => preIsCompatible c v)
  else false

/-! ### Substring containment (`str::matches(pat).any(|_| true)`) -/

def seqPrefixOf [BEq α] : List α → List α → Bool
  | [], _ => true
  | _ :: _, [] => false
  | a :: as, b :: bs => a == b && seqPrefixOf as bs

/-- `big` contains `small` as a contiguous subsequence; `str::matches`
yields at least one match exactly in this case. -/
def seqContainsSub [BEq α] (big small : List α) : Bool :=
  (List.range (big.length + 1)).any (fun i => seqPrefixOf small (big.drop i))

def strContainsSub (s pat : String) : Bool :=
  seqContainsSub s.toList pat.toList

/-! ## Assets and the manager state

`VersionAsset` / `VersionDownloadInfo` live in `binaries_resolver.rs`,
which is not part of the provided sources.  Modelled from the spec:
PlatformAsset is `{name, primary_url, fallback_url: optional,
source_kind}` where `source_kind` distinguishes a trusted mirror from a
generic host, and RemoteVersionEntry is `{version, assets}`. -/

inductive SourceKind where
  | trustedMirror
  | genericHost
deriving DecidableEq, Repr

def SourceKind.isMirror : SourceKind → Bool
  | .trustedMirror => true
  | .genericHost => false

structure VersionAsset where
  name : String
  url : String
  fallback_url : Option String
  source : SourceKind
deriving DecidableEq, Repr

structure VersionDownloadInfo where
  version : Version
  assets : List VersionAsset
deriving DecidableEq, Repr

/-- The `BinaryManager` struct.  The adapter is modelled separately as
part of the per-operation environment; `network_prerelease_tag` embeds
the source field `network_prerelease_prefix`. -/
structure BinaryManager where
  binary_name : String
  binary_subfolder : Option String
  version_requirements : VersionReq
  network_prerelease_tag : Option String
  should_validate_checksum : Bool
  online_versions_list : List VersionDownloadInfo
  local_aviailable_versions_list : List Version
  used_version : Option Version
deriving DecidableEq, Repr

/-! ## Pure manager operations -/

/-- `read_version_requirements`.  The two external parsers are passed as
oracles for their outcome: `doc` is the result of
`serde_json::from_str` (`none` = unparseable document, folded to the
default empty `binaries` map by `unwrap_or_default`), and `parse` is
`VersionReq::from_str(..).ok()` on the entry's value.  A missing or
unparseable entry degrades to `VersionReq::default()` = the empty
comparator list. -/
def read_version_requirements (binary_name : String)
    (doc : Option (List (String × String)))
    (parse : String → Option VersionReq) : VersionReq :=
  match ((doc.getD []).lookup binary_name).bind parse with
  | some req => req
  | none => defaultVersionReq

/-- `select_highest_local_version`: first element of the local list, or
`None` when it is empty (the list is whatever `read_local_versions`
accumulated; the code never sorts it). -/
def select_highest_local_version (m : BinaryManager) : Option Version :=
  match m.local_aviailable_versions_list with
  | [] => none
  | v :: _ => some v

/-- `select_highest_online_version`: first element of the online list,
or `None` when it is empty. -/
def select_highest_online_version (m : BinaryManager) : Option Version :=
  match m.online_versions_list with
  | [] => none
  | i :: _ => some i.version

/-- `select_highest_version`: `Version::max` of the two head versions
with `Version::new(0,0,0)` substituted for a missing one, mapped to
`None` when the maximum equals `0.0.0`. -/
def select_highest_version (m : BinaryManager) : Option Version :=
  let highest := versionMax
    ((select_highest_online_version m).getD versionZero)
    ((select_highest_local_version m).getD versionZero)
  if highest = versionZero then none else some highest

/-- `check_if_version_meet_requirements`: the requirement range must
match, and when a network prerelease tag is required the version's
prerelease string must contain it as a substring
(`version.pre.matches(prefix).any(|_| true)`). -/
def check_if_version_meet_requirements (m : BinaryManager) (v : Version) : Bool :=
  matchesReq m.version_requirements v
    && (match m.network_prerelease_tag with
        | none => true
        | some tag => strContainsSub v.pre tag)

/-- Stable insertion into a list already sorted ascending by version,
used to embed `Vec::sort_by(|a, b| a.version.cmp(&b.version))`. -/
def insertByVersion (x : VersionDownloadInfo) :
    List VersionDownloadInfo → List VersionDownloadInfo
  | [] => [x]
  | y :: ys =>
    if versionCmp y.version x.version = .gt then x :: y :: ys
    else y :: insertByVersion x ys

def sortByVersion (l : List VersionDownloadInfo) : List VersionDownloadInfo :=
  l.foldl (fun acc x => insertByVersion x acc) []

/-- `check_for_updates`.  `fetched` is `fetch_releases_list()`'s outcome
(`none` = fetch error, folded to the empty list by
`unwrap_or_default`).  Qualifying entries are pushed onto the existing
online list — the loop never clears it — then the whole list is sorted
ascending and reversed.  (`check_if_version_exceeds_requirements` only
emits a warning log and is omitted.) -/
def check_for_updates (m : BinaryManager)
    (fetched : Option (List VersionDownloadInfo)) : BinaryManager :=
  let pushed := (fetched.getD []).foldl
    (fun lst info =>
      if check_if_version_meet_requirements m info.version then lst ++ [info]
      else lst)
    m.online_versions_list
  { m with online_versions_list := (sortByVersion pushed).reverse }

/-! ## Filesystem model

A path is its list of components relative to an abstract filesystem
root; the filesystem is the list of existing nodes (directories and
files alike).  `remove_dir_all` removes a node and everything beneath
it; `create_dir_all` creates a node and all of its ancestors.  In the
source, removal failures inside the pipeline are either logged and
ignored or propagate with the tree untouched; the model makes the
operations themselves deterministic and lets the environment say which
calls report failure (a failed call leaves the tree as it was at the
point of failure). -/

abbrev FsPath := List String

abbrev FS := List FsPath

def fsExists (fs : FS) (p : FsPath) : Bool := decide (p ∈ fs)

def addNode (fs : FS) (p : FsPath) : FS :=
  if p ∈ fs then fs else fs ++ [p]

def removeDirAll (fs : FS) (p : FsPath) : FS :=
  fs.filter (fun q => !(seqPrefixOf p q))

def allAncestors (p : FsPath) : List FsPath :=
  (List.range (p.length + 1)).map (fun i => p.take i)

def createDirAll (fs : FS) (p : FsPath) : FS :=
  (allAncestors p).foldl addNode fs

/-! ## Download pipeline

Environment of outcomes for the external collaborators of one pipeline
run: the adapter (`get_binary_folder`, `find_version_for_platform`,
checksum retrieval), the request client (`download_file` on the primary
and fallback URLs), and the `extract` / `validate_checksum` utilities
from `download_utils` (not under the provided sources; their effects
are modelled from the spec: extraction unpacks into the version's
installation directory, checksum utilities compare the staged archive
against the adapter-supplied expected value). -/

structure PipelineEnv where
  binaryFolder : FsPath
  binaryFolderOk : Bool
  assetFound : Option VersionAsset
  destRemoveOk : Bool
  destCreateOk : Bool
  inProgressCreateOk : Bool
  primaryDownloadOk : Bool
  fallbackDownloadOk : Bool
  extractOk : Bool
  extractOutputs : List String
  checksumDownloadOk : Bool
  checksumFileName : String
  expectedChecksumOk : Bool
  checksumComputeOk : Bool
  checksumMatches : Bool
deriving Repr

inductive DlError where
  | noVersionSelected
  | versionInfoNotFound
  | platformAssetError
  | binaryFolderError
  | destDirError
  | inProgressError
  | downloadFailed
  | downloadFailedNoFallback
  | extractionFailed
  | checksumDownloadFailed
  | expectedChecksumFailed
  | checksumMismatch
  | checksumComputeFailed
deriving DecidableEq, Repr

inductive RunOutcome where
  | ok
  | err (e : DlError)
deriving DecidableEq, Repr

def destDirPath (root : FsPath) (v : Version) : FsPath :=
  root ++ [versionToString v]

def inProgressDirPath (root : FsPath) (v : Version) : FsPath :=
  destDirPath root v ++ ["in_progress"]

/-- Path the pipeline stages the downloaded archive at: inside the
`in_progress` directory, never directly in the version directory. -/
def inProgressZipPath (root : FsPath) (v : Version) (assetName : String) : FsPath :=
  inProgressDirPath root v ++ [assetName]

/-- `ensure_empty_directory`: an existing directory is recursively
removed and recreated, a missing one created fresh.  `false` = the
`std::fs` call reported an error (after a successful removal the
recreate may still fail, leaving the directory absent). -/
def ensure_empty_directory (env : PipelineEnv) (fs : FS) (dir : FsPath) : Bool × FS :=
  if fsExists fs dir then
    if env.destRemoveOk then
      let fs1 := removeDirAll fs dir
      if env.destCreateOk then (true, createDirAll fs1 dir) else (false, fs1)
    else (false, fs)
  else
    if env.destCreateOk then (true, createDirAll fs dir) else (false, fs)

/-- `create_in_progress_folder_for_selected_version`: removal of a stale
staging directory has its error logged and ignored; creation failure
propagates. -/
def create_in_progress_folder_for_selected_version (env : PipelineEnv)
    (fs : FS) (v : Version) : Bool × FS :=
  if env.binaryFolderOk then
    let ipd := inProgressDirPath env.binaryFolder v
    let fs1 := if fsExists fs ipd then removeDirAll fs ipd else fs
    if env.inProgressCreateOk then (true, createDirAll fs1 ipd) else (false, fs1)
  else (false, fs)

/-- `delete_in_progress_folder_for_selected_version`: removal errors are
logged and ignored; only a `get_binary_folder` failure propagates. -/
def delete_in_progress_folder_for_selected_version (env : PipelineEnv)
    (fs : FS) (v : Version) : Option DlError × FS :=
  if env.binaryFolderOk then
    (none, removeDirAll fs (inProgressDirPath env.binaryFolder v))
  else (some .binaryFolderError, fs)

/-- `validate_checksum` (the manager method).  The checksum file is
downloaded into the destination directory; a failure there removes the
destination directory, a `get_expected_checksum` failure propagates
without cleanup, and a computation error or mismatch removes the
destination directory. -/
def validate_checksum (env : PipelineEnv) (fs : FS) (destDir : FsPath) :
    Option DlError × FS :=
  if env.checksumDownloadOk then
    let fs1 := addNode fs (destDir ++ [env.checksumFileName])
    if env.expectedChecksumOk then
      if env.checksumComputeOk then
        if env.checksumMatches then (none, fs1)
        else (some .checksumMismatch, removeDirAll fs1 destDir)
      else (some .checksumComputeFailed, removeDirAll fs1 destDir)
    else (some .expectedChecksumFailed, fs1)
  else (some .checksumDownloadFailed, removeDirAll fs destDir)

/-- `get_asset_for_selected_version`: the version must have an entry in
the online list, then the adapter resolves the platform asset. -/
def get_asset_for_selected_version (m : BinaryManager) (env : PipelineEnv)
    (v : Version) : Except DlError VersionAsset :=
  match m.online_versions_list.find? (fun i => i.version == v) with
  | none => .error .versionInfoNotFound
  | some _ =>
    match env.assetFound with
    | none => .error .platformAssetError
    | some asset => .ok asset

/-- Result of one pipeline run: outcome, final filesystem, and the
number of progress watch channels created (`resolve_progress_channel`
creates one per call when the caller supplied a progress channel; it
never fails). -/
structure PipelineResult where
  result : RunOutcome
  fs : FS
  streams : Nat
deriving DecidableEq, Repr

/-- Extraction onwards (source lines 598–609): unpack the staged
archive into the destination directory, optionally validate the
checksum, then delete the staging directory. -/
def pipelineTail (m : BinaryManager) (env : PipelineEnv) (v : Version)
    (destDir : FsPath) (fs : FS) (streams : Nat) : PipelineResult :=
  if env.extractOk then
    let fs1 := env.extractOutputs.foldl (fun a n => addNode a (destDir ++ [n])) fs
    let afterChecksum :=
      if m.should_validate_checksum then validate_checksum env fs1 destDir
      else (none, fs1)
    match afterChecksum with
    | (some e, fs2) => ⟨.err e, fs2, streams⟩
    | (none, fs2) =>
      match delete_in_progress_folder_for_selected_version env fs2 v with
      | (some e, fs3) => ⟨.err e, fs3, streams⟩
      | (none, fs3) => ⟨.ok, fs3, streams⟩
  else ⟨.err .extractionFailed, fs, streams⟩

/-- `download_selected_version`: one full pipeline run.  `hasProgress`
records whether the caller passed a progress channel. -/
def download_selected_version (m : BinaryManager) (env : PipelineEnv)
    (hasProgress : Bool) (fs : FS) (selected : Option Version) : PipelineResult :=
  match selected with
  | none => ⟨.err .noVersionSelected, fs, 0⟩
  | some version =>
    match get_asset_for_selected_version m env version with
    | .error e => ⟨.err e, fs, 0⟩
    | .ok asset =>
      if env.binaryFolderOk then
        let destDir := destDirPath env.binaryFolder version
        match ensure_empty_directory env fs destDir with
        | (false, fs1) => ⟨.err .destDirError, fs1, 0⟩
        | (true, fs1) =>
          match create_in_progress_folder_for_selected_version env fs1 version with
          | (false, fs2) => ⟨.err .inProgressError, fs2, 0⟩
          | (true, fs2) =>
            let zipPath := inProgressZipPath env.binaryFolder version asset.name
            let streams1 := if hasProgress then 1 else 0
            if env.primaryDownloadOk then
              pipelineTail m env version destDir (addNode fs2 zipPath) streams1
            else
              match asset.fallback_url with
              | some _ =>
                let streams2 := streams1 + (if hasProgress then 1 else 0)
                if env.fallbackDownloadOk then
                  pipelineTail m env version destDir (addNode fs2 zipPath) streams2
                else ⟨.err .downloadFailed, fs2, streams2⟩
              | none => ⟨.err .downloadFailedNoFallback, fs2, streams1⟩
      else ⟨.err .binaryFolderError, fs, 0⟩

/-! ## Retry wrapper -/

structure RetryOut where
  result : RunOutcome
  fs : FS
  telemetry : Nat
  attempts : Nat
deriving DecidableEq, Repr

/-- The `for retry in 0..3` loop of `download_version_with_retries`:
`remaining` counts iterations left, `idx` pipeline invocations made,
`lastErr` the last failure (the source keeps the formatted message).
On exhaustion one telemetry event (`sentry::capture_message`) is
emitted and the aggregated failure returned. -/
def retryLoop (m : BinaryManager) (envs : Nat → PipelineEnv)
    (hasProgress : Bool) (v : Option Version) :
    Nat → Nat → FS → DlError → RetryOut
  | 0, idx, fs, lastErr => ⟨.err lastErr, fs, 1, idx⟩
  | r + 1, idx, fs, _ =>
    let a := download_selected_version m (envs idx) hasProgress fs v
    match a.result with
    | .ok => ⟨.ok, a.fs, 0, idx + 1⟩
    | .err e => retryLoop m envs hasProgress v r (idx + 1) a.fs e

/-- `download_version_with_retries`: up to 3 sequential attempts; the
environment may differ per attempt (`envs i` is the external world seen
by attempt `i`).  The initial `lastErr` stands for the initial empty
error message, unreachable in the result since 3 > 0. -/
def download_version_with_retries (m : BinaryManager)
    (envs : Nat → PipelineEnv) (hasProgress : Bool) (fs : FS)
    (v : Option Version) : RetryOut :=
  retryLoop m envs hasProgress v 3 0 fs .noVersionSelected

/-! ## Local inventory -/

/-- One entry of `std::fs::read_dir` on the binary folder, restricted to
what the scan inspects: whether `file_type()` succeeded, whether it is a
directory, and the outcome of parsing the folder name as a version
(`none` folds together a non-UTF-8 name and a `Version::from_str`
failure — both are logged and skipped). -/
structure DirEntry where
  ftypeOk : Bool
  isDir : Bool
  parsed : Option Version
deriving Repr

/-- On-disk inventory environment.  `filesExist` models the
`check_if_files_for_version_exist` probe for a version directory
(binary file, its `.exe` variant, or `index.html` — the candidate file
names come from `Binaries::binary_file_name`, outside the provided
sources). -/
structure Disk where
  binaryFolderOk : Bool
  readDirOk : Bool
  entries : List DirEntry
  filesExist : Version → Bool

/-- `check_if_files_for_version_exist`: `false` when no version is
given or the binary folder cannot be resolved, otherwise the on-disk
probe. -/
def check_if_files_for_version_exist (disk : Disk) (v : Option Version) : Bool :=
  match v with
  | none => false
  | some version => disk.binaryFolderOk && disk.filesExist version

/-- Versions a scan of `disk` appends for manager `m`: directory
entries whose name parses, that meet the requirements, and whose files
are present. -/
def qualifyingVersions (m : BinaryManager) (disk : Disk) : List Version :=
  disk.entries.foldl
    (fun acc e =>
      if e.ftypeOk && e.isDir then
        match e.parsed with
        | some v =>
          if check_if_version_meet_requirements m v
              && check_if_files_for_version_exist disk (some v) then acc ++ [v]
          else acc
        | none => acc
      else acc)
    []

/-- `read_local_versions`: folder-access errors degrade to a no-op;
qualifying versions are pushed onto the existing local list (never
cleared). -/
def read_local_versions (m : BinaryManager) (disk : Disk) : BinaryManager :=
  if disk.binaryFolderOk then
    if disk.readDirOk then
      { m with local_aviailable_versions_list :=
          m.local_aviailable_versions_list ++ qualifyingVersions m disk }
    else m
  else m

/-! ## Helper lemmas -/

theorem foldl_push_filter (p : VersionDownloadInfo → Bool) :
    ∀ (infos lst : List VersionDownloadInfo),
      infos.foldl (fun l i => if p i then l ++ [i] else l) lst
        = lst ++ infos.filter p
  | [], lst => by simp
  | i :: is, lst => by
    cases h : p i <;>
      simp [List.foldl_cons, List.filter_cons, h, foldl_push_filter p is]

theorem mem_insertByVersion (x y : VersionDownloadInfo) :
    ∀ l, x ∈ insertByVersion y l ↔ x = y ∨ x ∈ l
  | [] => by simp [insertByVersion]
  | z :: zs => by
    unfold insertByVersion
    split <;> (first
      | (simp [mem_insertByVersion x y zs]; tauto)
      | simp [mem_insertByVersion x y zs])

theorem mem_sortByVersion_aux (x : VersionDownloadInfo) :
    ∀ (l acc : List VersionDownloadInfo),
      x ∈ l.foldl (fun a y => insertByVersion y a) acc ↔ x ∈ acc ∨ x ∈ l
  | [], acc => by simp
  | y :: ys, acc => by
    simp only [List.foldl_cons, mem_sortByVersion_aux x ys,
      mem_insertByVersion x y acc, List.mem_cons]
    tauto

theorem mem_sortByVersion (x : VersionDownloadInfo) (l : List VersionDownloadInfo) :
    x ∈ sortByVersion l ↔ x ∈ l := by
  unfold sortByVersion
  simp [mem_sortByVersion_aux]

theorem seqPrefixOf_iff [BEq α] [LawfulBEq α] :
    ∀ (a b : List α), seqPrefixOf a b = true ↔ ∃ t, b = a ++ t
  | [], b => by simp [seqPrefixOf]
  | x :: xs, [] => by
    simp only [seqPrefixOf, List.cons_append]
    constructor
    · intro h; exact absurd h (by simp)
    · rintro ⟨t, ht⟩; exact absurd ht (by simp)
  | x :: xs, y :: ys => by
    simp only [seqPrefixOf, Bool.and_eq_true, beq_iff_eq, seqPrefixOf_iff xs ys]
    constructor
    · rintro ⟨rfl, t, rfl⟩; exact ⟨t, rfl⟩
    · rintro ⟨t, ht⟩
      rw [List.cons_append] at ht
      obtain ⟨rfl, rfl⟩ := List.cons.inj ht
      exact ⟨rfl, t, rfl⟩

theorem seqPrefixOf_refl [BEq α] [LawfulBEq α] (a : List α) :
    seqPrefixOf a a = true :=
  (seqPrefixOf_iff a a).2 ⟨[], by simp⟩

theorem seqPrefixOf_length_le [BEq α] [LawfulBEq α] {a b : List α}
    (h : seqPrefixOf a b = true) : a.length ≤ b.length := by
  obtain ⟨t, rfl⟩ := (seqPrefixOf_iff a b).1 h
  simp

theorem seqPrefixOf_take [BEq α] [LawfulBEq α] (p : List α) (i : Nat) :
    seqPrefixOf (p.take i) p = true :=
  (seqPrefixOf_iff _ p).2 ⟨p.drop i, (List.take_append_drop i p).symm⟩

theorem fsExists_iff (fs : FS) (p : FsPath) : fsExists fs p = true ↔ p ∈ fs := by
  simp [fsExists]

theorem mem_addNode (fs : FS) (r q : FsPath) :
    q ∈ addNode fs r ↔ q ∈ fs ∨ q = r := by
  unfold addNode
  split
  · rename_i h
    constructor
    · exact fun hq => Or.inl hq
    · rintro (hq | rfl)
      · exact hq
      · exact h
  · simp

theorem mem_removeDirAll (fs : FS) (p q : FsPath) :
    q ∈ removeDirAll fs p ↔ q ∈ fs ∧ seqPrefixOf p q = false := by
  unfold removeDirAll
  simp [List.mem_filter]

theorem mem_foldl_addNode (q : FsPath) :
    ∀ (l : List FsPath) (fs : FS), q ∈ l.foldl addNode fs ↔ q ∈ fs ∨ q ∈ l
  | [], fs => by simp
  | r :: rs, fs => by
    simp only [List.foldl_cons, mem_foldl_addNode q rs, mem_addNode,
      List.mem_cons]
    tauto

theorem mem_createDirAll (fs : FS) (p q : FsPath) :
    q ∈ createDirAll fs p ↔ q ∈ fs ∨ q ∈ allAncestors p := by
  unfold createDirAll
  exact mem_foldl_addNode q (allAncestors p) fs

theorem mem_allAncestors (p q : FsPath) :
    q ∈ allAncestors p ↔ ∃ i, i ≤ p.length ∧ q = p.take i := by
  unfold allAncestors
  simp only [List.mem_map, List.mem_range]
  constructor
  · rintro ⟨i, hi, rfl⟩; exact ⟨i, Nat.lt_succ_iff.1 hi, rfl⟩
  · rintro ⟨i, hi, rfl⟩; exact ⟨i, Nat.lt_succ_iff.2 hi, rfl⟩

theorem self_mem_allAncestors (p : FsPath) : p ∈ allAncestors p :=
  (mem_allAncestors p p).2 ⟨p.length, Nat.le_refl _, (List.take_length p).symm⟩

theorem fsExists_createDirAll_self (fs : FS) (p : FsPath) :
    fsExists (createDirAll fs p) p = true := by
  rw [fsExists_iff, mem_createDirAll]
  exact Or.inr (self_mem_allAncestors p)

theorem fsExists_removeDirAll_self (fs : FS) (p : FsPath) :
    fsExists (removeDirAll fs p) p = false := by
  rw [← Bool.not_eq_true, fsExists_iff, mem_removeDirAll]
  intro h
  rw [seqPrefixOf_refl] at h
  exact absurd h.2 (by simp)

theorem seqContainsSub_iff [BEq α] [LawfulBEq α] (big small : List α) :
    seqContainsSub big small = true ↔ ∃ l r, big = l ++ small ++ r := by
  unfold seqContainsSub
  rw [List.any_eq_true]
  constructor
  · rintro ⟨i, _, hpre⟩
    obtain ⟨t, ht⟩ := (seqPrefixOf_iff small (big.drop i)).1 hpre
    exact ⟨big.take i, t, by rw [List.append_assoc, ← ht, List.take_append_drop]⟩
  · rintro ⟨l, r, rfl⟩
    refine ⟨l.length, ?_, ?_⟩
    · simp [Nat.lt_succ_iff]
    · rw [List.append_assoc, List.drop_left]
      exact (seqPrefixOf_iff small (small ++ r)).2 ⟨r, rfl⟩

theorem fsExists_addNode_of {fs : FS} {p : FsPath} (h : fsExists fs p = true)
    (r : FsPath) : fsExists (addNode fs r) p = true := by
  rw [fsExists_iff] at h ⊢
  exact (mem_addNode fs r p).2 (Or.inl h)

theorem fsExists_createDirAll_of {fs : FS} {p : FsPath}
    (h : fsExists fs p = true) (r : FsPath) :
    fsExists (createDirAll fs r) p = true := by
  rw [fsExists_iff] at h ⊢
  exact (mem_createDirAll fs r p).2 (Or.inl h)

theorem fsExists_removeDirAll_of {fs : FS} {p q : FsPath}
    (hpre : seqPrefixOf q p = false) (h : fsExists fs p = true) :
    fsExists (removeDirAll fs q) p = true := by
  rw [fsExists_iff] at h ⊢
  exact (mem_removeDirAll fs q p).2 ⟨h, hpre⟩

theorem fsExists_foldl_addNode_map_of {p : FsPath} (f : String → FsPath) :
    ∀ (l : List String) (fs : FS), fsExists fs p = true →
      fsExists (l.foldl (fun a n => addNode a (f n)) fs) p = true
  | [], _, h => h
  | x :: xs, fs, h =>
    fsExists_foldl_addNode_map_of f xs (addNode fs (f x)) (fsExists_addNode_of h _)

theorem seqPrefixOf_append_singleton (p : FsPath) (x : String) :
    seqPrefixOf (p ++ [x]) p = false := by
  cases h : seqPrefixOf (p ++ [x]) p with
  | false => rfl
  | true => exact absurd (seqPrefixOf_length_le h) (by simp)

theorem append_singleton_ne (p : FsPath) (x a : String) :
    (p ++ [x]) ++ [a] ≠ p ++ [a] := by
  intro h
  have hlen := congrArg List.length h
  simp at hlen

/-- A successful `ensure_empty_directory` leaves the directory present. -/
theorem ensure_empty_directory_ok {env : PipelineEnv} {fs fs1 : FS} {d : FsPath}
    (h : ensure_empty_directory env fs d = (true, fs1)) :
    fsExists fs1 d = true := by
  unfold ensure_empty_directory at h
  split at h
  · split at h
    · split at h
      · obtain ⟨-, rfl⟩ := Prod.mk.injEq .. ▸ h
        exact fsExists_createDirAll_self _ _
      · exact absurd (congrArg Prod.fst h) (by simp)
    · exact absurd (congrArg Prod.fst h) (by simp)
  · split at h
    · obtain ⟨-, rfl⟩ := Prod.mk.injEq .. ▸ h
      exact fsExists_createDirAll_self _ _
    · exact absurd (congrArg Prod.fst h) (by simp)

/-- A successful staging-directory creation preserves any node the
staging directory does not lead to. -/
theorem create_in_progress_preserves {env : PipelineEnv} {fs fs2 : FS}
    {v : Version} {p : FsPath}
    (h : create_in_progress_folder_for_selected_version env fs v = (true, fs2))
    (hpre : seqPrefixOf (inProgressDirPath env.binaryFolder v) p = false)
    (hp : fsExists fs p = true) : fsExists fs2 p = true := by
  unfold create_in_progress_folder_for_selected_version at h
  split at h
  · split at h
    · obtain ⟨-, rfl⟩ := Prod.mk.injEq .. ▸ h
      split
      · exact fsExists_createDirAll_of (fsExists_removeDirAll_of hpre hp) _
      · exact fsExists_createDirAll_of hp _
    · exact absurd (congrArg Prod.fst h) (by simp)
  · exact absurd (congrArg Prod.fst h) (by simp)

/-- A successful staging-directory creation makes the staging directory
exist. -/
theorem create_in_progress_ipd {env : PipelineEnv} {fs fs2 : FS} {v : Version}
    (h : create_in_progress_folder_for_selected_version env fs v = (true, fs2)) :
    fsExists fs2 (inProgressDirPath env.binaryFolder v) = true := by
  unfold create_in_progress_folder_for_selected_version at h
  split at h
  · split at h
    · obtain ⟨-, rfl⟩ := Prod.mk.injEq .. ▸ h
      exact fsExists_createDirAll_self _ _
    · exact absurd (congrArg Prod.fst h) (by simp)
  · exact absurd (congrArg Prod.fst h) (by simp)

/-- The asset lookup fails only with one of its two own errors. -/
theorem get_asset_error_range {m : BinaryManager} {env : PipelineEnv}
    {v : Version} {e : DlError}
    (h : get_asset_for_selected_version m env v = .error e) :
    e = .versionInfoNotFound ∨ e = .platformAssetError := by
  unfold get_asset_for_selected_version at h
  split at h
  · exact Or.inl (Except.error.inj h).symm
  · split at h
    · exact Or.inr (Except.error.inj h).symm
    · exact absurd h (by simp)

theorem validate_checksum_err {env : PipelineEnv} {fs fs2 : FS} {d : FsPath}
    {e : DlError} (h : validate_checksum env fs d = (some e, fs2)) :
    ((e = .checksumDownloadFailed ∨ e = .checksumComputeFailed
        ∨ e = .checksumMismatch) → fsExists fs2 d = false)
      ∧ (e = .expectedChecksumFailed →
          fsExists fs d = true → fsExists fs2 d = true)
      ∧ (e = .checksumDownloadFailed ∨ e = .expectedChecksumFailed
          ∨ e = .checksumComputeFailed ∨ e = .checksumMismatch) := by
  unfold validate_checksum at h
  split at h
  · split at h
    · split at h
      · split at h
        · exact absurd h (by simp)
        · obtain ⟨he, rfl⟩ := Prod.mk.injEq .. ▸ h
          obtain rfl : e = .checksumMismatch := by
            injection he.symm
          exact ⟨fun _ => fsExists_removeDirAll_self _ _,
            fun hc => absurd hc (by decide), by tauto⟩
      · obtain ⟨he, rfl⟩ := Prod.mk.injEq .. ▸ h
        obtain rfl : e = .checksumComputeFailed := by injection he.symm
        exact ⟨fun _ => fsExists_removeDirAll_self _ _,
          fun hc => absurd hc (by decide), by tauto⟩
    · obtain ⟨he, rfl⟩ := Prod.mk.injEq .. ▸ h
      obtain rfl : e = .expectedChecksumFailed := by injection he.symm
      refine ⟨fun hc => ?_, fun _ hds => fsExists_addNode_of hds _, by tauto⟩
      rcases hc with hc | hc | hc <;> exact absurd hc (by decide)
  · obtain ⟨he, rfl⟩ := Prod.mk.injEq .. ▸ h
    obtain rfl : e = .checksumDownloadFailed := by injection he.symm
    exact ⟨fun _ => fsExists_removeDirAll_self _ _,
      fun hc => absurd hc (by decide), by tauto⟩

theorem validate_checksum_ok {env : PipelineEnv} {fs fs2 : FS} {d : FsPath}
    (h : validate_checksum env fs d = (none, fs2))
    (hds : fsExists fs d = true) : fsExists fs2 d = true := by
  unfold validate_checksum at h
  split at h
  · split at h
    · split at h
      · split at h
        · obtain ⟨-, rfl⟩ := Prod.mk.injEq .. ▸ h
          exact fsExists_addNode_of hds _
        · exact absurd (congrArg Prod.fst h) (by simp)
      · exact absurd (congrArg Prod.fst h) (by simp)
    · exact absurd (congrArg Prod.fst h) (by simp)
  · exact absurd (congrArg Prod.fst h) (by simp)

theorem delete_in_progress_none {env : PipelineEnv} {fs fs3 : FS} {v : Version}
    (h : delete_in_progress_folder_for_selected_version env fs v = (none, fs3)) :
    fsExists fs3 (inProgressDirPath env.binaryFolder v) = false := by
  unfold delete_in_progress_folder_for_selected_version at h
  split at h
  · obtain ⟨-, rfl⟩ := Prod.mk.injEq .. ▸ h
    exact fsExists_removeDirAll_self _ _
  · exact absurd (congrArg Prod.fst h) (by simp)

theorem delete_in_progress_some {env : PipelineEnv} {fs fs3 : FS} {v : Version}
    {e : DlError}
    (h : delete_in_progress_folder_for_selected_version env fs v = (some e, fs3)) :
    e = .binaryFolderError ∧ fs3 = fs := by
  unfold delete_in_progress_folder_for_selected_version at h
  split at h
  · exact absurd (congrArg Prod.fst h) (by simp)
  · obtain ⟨he, rfl⟩ := Prod.mk.injEq .. ▸ h
    exact ⟨by injection he.symm, rfl⟩

theorem pipelineTail_facts (m : BinaryManager) (env : PipelineEnv) (v : Version)
    (dd : FsPath) (fs : FS) (st : Nat) (res : RunOutcome) (fsOut : FS) (stOut : Nat)
    (hrun : pipelineTail m env v dd fs st = ⟨res, fsOut, stOut⟩)
    (hds : fsExists fs dd = true) :
    ((res = .err .checksumDownloadFailed ∨ res = .err .checksumComputeFailed
        ∨ res = .err .checksumMismatch) → fsExists fsOut dd = false)
      ∧ ((res = .err .downloadFailed ∨ res = .err .downloadFailedNoFallback
          ∨ res = .err .extractionFailed ∨ res = .err .expectedChecksumFailed)
          → fsExists fsOut dd = true)
      ∧ (res = .ok → fsExists fsOut (inProgressDirPath env.binaryFolder v) = false) := by
  unfold pipelineTail at hrun
  dsimp only at hrun
  have hds1 : fsExists (env.extractOutputs.foldl
      (fun a n => addNode a (dd ++ [n])) fs) dd = true :=
    fsExists_foldl_addNode_map_of _ _ _ hds
  split at hrun
  case isFalse hex =>
    injection hrun with h1 h2 h3
    subst h1; subst h2; subst h3
    refine ⟨?_, ?_, ?_⟩ <;> intro h
    · rcases h with h | h | h <;> simp at h
    · rcases h with h | h | h | h
      · simp at h
      · simp at h
      · exact hds
      · simp at h
    · simp at h
  case isTrue hex =>
    split at hrun
    case h_1 e fs2 heq =>
      injection hrun with h1 h2 h3
      subst h1; subst h2; subst h3
      split at heq
      case isTrue hval =>
        obtain ⟨hc1, hc2, hrange⟩ := validate_checksum_err heq
        refine ⟨?_, ?_, ?_⟩ <;> intro h
        · rcases h with h | h | h <;>
            (injection h with h; subst h; exact hc1 (by tauto))
        · rcases h with h | h | h | h
          · injection h with h
            subst h
            rcases hrange with h | h | h | h <;> exact absurd h (by decide)
          · injection h with h
            subst h
            rcases hrange with h | h | h | h <;> exact absurd h (by decide)
          · injection h with h
            subst h
            rcases hrange with h | h | h | h <;> exact absurd h (by decide)
          · injection h with h
            exact hc2 h hds1
        · simp at h
      case isFalse hval =>
        exact absurd (congrArg Prod.fst heq) (by simp)
    case h_2 fs2 heq =>
      split at hrun
      case h_1 e2 fs3 heq2 =>
        injection hrun with h1 h2 h3
        subst h1; subst h2; subst h3
        obtain ⟨rfl, rfl⟩ := delete_in_progress_some heq2
        refine ⟨?_, ?_, ?_⟩ <;> intro h
        · rcases h with h | h | h <;> simp at h
        · rcases h with h | h | h | h <;> simp at h
        · simp at h
      case h_2 fs3 heq2 =>
        injection hrun with h1 h2 h3
        subst h1; subst h2; subst h3
        refine ⟨?_, ?_, ?_⟩ <;> intro h
        · rcases h with h | h | h <;> simp at h
        · rcases h with h | h | h | h <;> simp at h
        · exact delete_in_progress_none heq2


theorem download_selected_version_facts (m : BinaryManager) (env : PipelineEnv)
    (hp : Bool) (fs : FS) (v : Version) (res : RunOutcome) (fsOut : FS) (stOut : Nat)
    (hrun : download_selected_version m env hp fs (some v) = ⟨res, fsOut, stOut⟩) :
    ((res = .err .checksumDownloadFailed ∨ res = .err .checksumComputeFailed
        ∨ res = .err .checksumMismatch)
      → fsExists fsOut (destDirPath env.binaryFolder v) = false)
    ∧ ((res = .err .downloadFailed ∨ res = .err .downloadFailedNoFallback
        ∨ res = .err .extractionFailed ∨ res = .err .expectedChecksumFailed)
      → fsExists fsOut (destDirPath env.binaryFolder v) = true)
    ∧ (res = .ok → fsExists fsOut (inProgressDirPath env.binaryFolder v) = false) := by
  unfold download_selected_version at hrun
  dsimp only at hrun
  split at hrun
  case h_1 e heq =>
    injection hrun with h1 h2 h3
    subst h1; subst h2; subst h3
    have hre := get_asset_error_range heq
    refine ⟨?_, ?_, ?_⟩ <;> intro h
    · rcases hre with rfl | rfl <;> (rcases h with h | h | h <;> simp at h)
    · rcases hre with rfl | rfl <;> (rcases h with h | h | h | h <;> simp at h)
    · simp at h
  case h_2 asset heq =>
    split at hrun
    case isFalse hbf =>
      injection hrun with h1 h2 h3
      subst h1; subst h2; subst h3
      refine ⟨?_, ?_, ?_⟩ <;> intro h
      · rcases h with h | h | h <;> simp at h
      · rcases h with h | h | h | h <;> simp at h
      · simp at h
    case isTrue hbf =>
      split at hrun
      case h_1 fs1 hee =>
        injection hrun with h1 h2 h3
        subst h1; subst h2; subst h3
        refine ⟨?_, ?_, ?_⟩ <;> intro h
        · rcases h with h | h | h <;> simp at h
        · rcases h with h | h | h | h <;> simp at h
        · simp at h
      case h_2 fs1 hee =>
        split at hrun
        case h_1 fs2 hcc =>
          injection hrun with h1 h2 h3
          subst h1; subst h2; subst h3
          refine ⟨?_, ?_, ?_⟩ <;> intro h
          · rcases h with h | h | h <;> simp at h
          · rcases h with h | h | h | h <;> simp at h
          · simp at h
        case h_2 fs2 hcc =>
          have hdd1 : fsExists fs1 (destDirPath env.binaryFolder v) = true :=
            ensure_empty_directory_ok hee
          have hdd2 : fsExists fs2 (destDirPath env.binaryFolder v) = true :=
            create_in_progress_preserves hcc (seqPrefixOf_append_singleton _ _) hdd1
          split at hrun
          case isTrue hpd =>
            exact pipelineTail_facts _ _ _ _ _ _ _ _ _ hrun
              (fsExists_addNode_of hdd2 _)
          case isFalse hpd =>
            split at hrun
            case h_1 u hfb =>
              split at hrun
              case isTrue hfd =>
                exact pipelineTail_facts _ _ _ _ _ _ _ _ _ hrun
                  (fsExists_addNode_of hdd2 _)
              case isFalse hfd =>
                injection hrun with h1 h2 h3
                subst h1; subst h2; subst h3
                refine ⟨?_, ?_, ?_⟩ <;> intro h
                · rcases h with h | h | h <;> simp at h
                · exact hdd2
                · simp at h
            case h_2 hfb =>
              injection hrun with h1 h2 h3
              subst h1; subst h2; subst h3
              refine ⟨?_, ?_, ?_⟩ <;> intro h
              · rcases h with h | h | h <;> simp at h
              · exact hdd2
              · simp at h

/-- After a successful `ensure_empty_directory` on an ancestor-closed
tree, the directory has no strict descendants. -/
theorem ensure_empty_directory_ok_no_desc {env : PipelineEnv} {fs fs1 : FS}
    {d : FsPath} (hanc : ∀ q ∈ fs, ∀ i, q.take i ∈ fs)
    (h : ensure_empty_directory env fs d = (true, fs1)) :
    ∀ q ∈ fs1, seqPrefixOf d q = true → q = d := by
  unfold ensure_empty_directory at h
  split at h
  · split at h
    · split at h
      · obtain ⟨-, rfl⟩ := Prod.mk.injEq .. ▸ h
        intro q hq hpre
        rcases (mem_createDirAll _ _ _).1 hq with hq | hq
        · have hmem := (mem_removeDirAll _ _ _).1 hq
          rw [hpre] at hmem
          exact absurd hmem.2 (by simp)
        · obtain ⟨i, _, rfl⟩ := (mem_allAncestors _ _).1 hq
          have hlen := seqPrefixOf_length_le hpre
          rw [List.length_take] at hlen
          exact List.take_of_length_le (le_trans hlen (Nat.min_le_left _ _))
      · exact absurd (congrArg Prod.fst h) (by simp)
    · exact absurd (congrArg Prod.fst h) (by simp)
  · rename_i hnotex
    split at h
    · obtain ⟨-, rfl⟩ := Prod.mk.injEq .. ▸ h
      intro q hq hpre
      rcases (mem_createDirAll _ _ _).1 hq with hq | hq
      · exfalso
        obtain ⟨t, rfl⟩ := (seqPrefixOf_iff d q).1 hpre
        have hmem := hanc _ hq d.length
        rw [List.take_left] at hmem
        exact hnotex ((fsExists_iff fs d).2 hmem)
      · obtain ⟨i, _, rfl⟩ := (mem_allAncestors _ _).1 hq
        have hlen := seqPrefixOf_length_le hpre
        rw [List.length_take] at hlen
        exact List.take_of_length_le (le_trans hlen (Nat.min_le_left _ _))
    · exact absurd (congrArg Prod.fst h) (by simp)

theorem seqPrefixOf_of_snoc {d : FsPath} {x : String} {q : FsPath}
    (h : seqPrefixOf (d ++ [x]) q = true) : seqPrefixOf d q = true := by
  obtain ⟨t, rfl⟩ := (seqPrefixOf_iff _ _).1 h
  exact (seqPrefixOf_iff _ _).2 ⟨[x] ++ t, by simp⟩

theorem mem_allAncestors_snoc_cases {d : FsPath} {x : String} {q : FsPath}
    (hq : q ∈ allAncestors (d ++ [x])) (hpre : seqPrefixOf d q = true) :
    q = d ∨ q = d ++ [x] := by
  obtain ⟨i, -, rfl⟩ := (mem_allAncestors _ _).1 hq
  have hlen := seqPrefixOf_length_le hpre
  rw [List.length_take, List.length_append] at hlen
  have hdi : d.length ≤ i :=
    le_trans hlen (Nat.min_le_left _ _)
  rcases Nat.lt_or_ge i (d.length + 1) with hlt | hge
  · have hi : i = d.length := Nat.le_antisymm (Nat.lt_succ_iff.1 hlt) hdi
    subst hi
    exact Or.inl (List.take_left d [x])
  · right
    refine List.take_of_length_le ?_
    rw [List.length_append]
    simpa using hge

/-- A successful staging-directory creation, on a tree where the only
node at or below the destination directory is the destination itself,
yields a tree where the nodes at or below the destination are exactly
the destination and the (empty) staging directory. -/
theorem create_in_progress_desc {env : PipelineEnv} {fs1 fs2 : FS} {v : Version}
    (h : create_in_progress_folder_for_selected_version env fs1 v = (true, fs2))
    (hno : ∀ q ∈ fs1, seqPrefixOf (destDirPath env.binaryFolder v) q = true →
        q = destDirPath env.binaryFolder v) :
    (∀ q ∈ fs2, seqPrefixOf (destDirPath env.binaryFolder v) q = true →
        q = destDirPath env.binaryFolder v
          ∨ q = inProgressDirPath env.binaryFolder v)
      ∧ (∀ q ∈ fs2, seqPrefixOf (inProgressDirPath env.binaryFolder v) q = true →
          q = inProgressDirPath env.binaryFolder v) := by
  unfold create_in_progress_folder_for_selected_version at h
  split at h
  · split at h
    · obtain ⟨-, rfl⟩ := Prod.mk.injEq .. ▸ h
      constructor
      · intro q hq hpre
        rcases (mem_createDirAll _ _ _).1 hq with hq | hq
        · split at hq
          · exact Or.inl (hno q ((mem_removeDirAll _ _ _).1 hq).1 hpre)
          · exact Or.inl (hno q hq hpre)
        · exact mem_allAncestors_snoc_cases hq hpre
      · intro q hq hpre
        rcases (mem_createDirAll _ _ _).1 hq with hq | hq
        · split at hq
          · obtain ⟨-, hfalse⟩ := (mem_removeDirAll _ _ _).1 hq
            rw [hpre] at hfalse
            exact absurd hfalse (by simp)
          · have hqd := hno q hq (seqPrefixOf_of_snoc hpre)
            subst hqd
            exact absurd hpre
              (by unfold inProgressDirPath; rw [seqPrefixOf_append_singleton]; simp)
        · obtain ⟨i, -, rfl⟩ := (mem_allAncestors _ _).1 hq
          have hlen := seqPrefixOf_length_le hpre
          rw [List.length_take] at hlen
          exact List.take_of_length_le (le_trans hlen (Nat.min_le_left _ _))
    · exact absurd (congrArg Prod.fst h) (by simp)
  · exact absurd (congrArg Prod.fst h) (by simp)

/-- `select_highest_version` in terms of the heads of the two lists. -/
theorem select_highest_version_head_char (m : BinaryManager) :
    select_highest_version m =
      (let highest := versionMax
        ((m.online_versions_list.head?.map (fun i => i.version)).getD versionZero)
        (m.local_aviailable_versions_list.head?.getD versionZero)
      if highest = versionZero then none else some highest) := by
  unfold select_highest_version select_highest_online_version
    select_highest_local_version
  cases m.online_versions_list <;> cases m.local_aviailable_versions_list <;> rfl

/-- A maximal element: a member that dominates every member. -/
def IsMaxOf (v : Version) (l : List Version) : Prop :=
  v ∈ l ∧ ∀ w ∈ l, versionLe w v

/-- Appending elements already present does not change the maxima. -/
theorem isMaxOf_append_subset (v : Version) (l q : List Version)
    (hq : ∀ x ∈ q, x ∈ l) : IsMaxOf v l ↔ IsMaxOf v (l ++ q) := by
  unfold IsMaxOf
  constructor
  · rintro ⟨hv, hub⟩
    refine ⟨List.mem_append_left q hv, ?_⟩
    intro w hw
    rcases List.mem_append.1 hw with h | h
    · exact hub w h
    · exact hub w (hq w h)
  · rintro ⟨hv, hub⟩
    rcases List.mem_append.1 hv with h | h
    · exact ⟨h, fun w hw => hub w (List.mem_append_left q hw)⟩
    · exact ⟨hq v h, fun w hw => hub w (List.mem_append_left q hw)⟩

theorem head?_append_self (l q : List α) :
    ((l ++ q) ++ q).head? = (l ++ q).head? := by
  cases h : l ++ q with
  | nil =>
    obtain ⟨-, hq⟩ := List.append_eq_nil.1 h
    simp [h, hq]
  | cons x xs => simp [h]

/-- The qualifying-version scan only reads the policy fields, which an
update of the local list leaves untouched. -/
theorem qualifyingVersions_update_local (m : BinaryManager) (disk : Disk)
    (X : List Version) :
    qualifyingVersions { m with local_aviailable_versions_list := X } disk
      = qualifyingVersions m disk := rfl

/-! ## Concrete fixtures -/

def mBase : BinaryManager :=
  { binary_name := "node", binary_subfolder := none,
    version_requirements := [], network_prerelease_tag := none,
    should_validate_checksum := false, online_versions_list := [],
    local_aviailable_versions_list := [], used_version := none }

def v100 : Version := ⟨1, 0, 0, ""⟩

def v200 : Version := ⟨2, 0, 0, ""⟩

def assetNoFb : VersionAsset := ⟨"node.zip", "primary-url", none, .genericHost⟩

def assetFb : VersionAsset := ⟨"node.zip", "primary-url", some "fb-url", .genericHost⟩

def infoOne : VersionDownloadInfo := ⟨v100, [assetNoFb]⟩

def infoTwo : VersionDownloadInfo := ⟨v200, [assetNoFb]⟩

def infoOneFb : VersionDownloadInfo := ⟨v100, [assetFb]⟩

def fsInit : FS := [[]]

/-- Environment in which every external collaborator succeeds except the
primary download. -/
def envPrimaryFail : PipelineEnv :=
  { binaryFolder := ["binaries"], binaryFolderOk := true,
    assetFound := some assetNoFb, destRemoveOk := true, destCreateOk := true,
    inProgressCreateOk := true, primaryDownloadOk := false,
    fallbackDownloadOk := true, extractOk := true, extractOutputs := ["node_bin"],
    checksumDownloadOk := true, checksumFileName := "checksums.txt",
    expectedChecksumOk := true, checksumComputeOk := true, checksumMatches := true }

/-- Everything succeeds but the computed checksum mismatches. -/
def envMismatch : PipelineEnv :=
  { envPrimaryFail with primaryDownloadOk := true, checksumMatches := false }

/-- Everything succeeds, fallback asset in the catalog. -/
def envAllOkFb : PipelineEnv :=
  { envPrimaryFail with assetFound := some assetFb, primaryDownloadOk := true }

def mC1 : BinaryManager :=
  { mBase with local_aviailable_versions_list := [versionZero] }

def mC2 : BinaryManager := { mBase with online_versions_list := [infoOne] }

def mC2ck : BinaryManager := { mC2 with should_validate_checksum := true }

def mC3 : BinaryManager := { mBase with online_versions_list := [infoTwo] }

def mFb : BinaryManager := { mBase with online_versions_list := [infoOneFb] }

/-- A disk with a single qualifying version directory `1.0.0`. -/
def diskOne : Disk :=
  { binaryFolderOk := true, readDirOk := true,
    entries := [⟨true, true, some v100⟩], filesExist := fun _ => true }

/-! ## Claims -/

/-- C1 (counterexample): with an empty online list and `0.0.0` as the
only (hence highest) local version, `select_highest_version` returns
`None` even though the two lists are not both empty — the claim's "it
returns None exactly when both lists are empty" fails, because the code
compares the selected maximum against `Version::new(0,0,0)` and cannot
distinguish a genuine `0.0.0` candidate from the empty-list sentinel. -/
theorem c1_counterexample :
    select_highest_version mC1 = none
      ∧ mC1.local_aviailable_versions_list = [versionZero]
      ∧ mC1.online_versions_list = [] := by
  decide

/-- C1 (amended): `select_highest_version` returns `Version::max` over
the first entries of the online and local lists (the highest entries
whenever the lists are sorted descending, as `check_for_updates` keeps
the online list), an empty list contributing the `0.0.0` sentinel; it
returns `None` exactly when that maximum equals `0.0.0` — in particular
when both lists are empty, but also when `0.0.0` is the genuinely
highest candidate. -/
theorem c1_select_highest_version (m : BinaryManager) :
    select_highest_version m =
      (let highest := versionMax
        ((m.online_versions_list.head?.map (fun i => i.version)).getD versionZero)
        (m.local_aviailable_versions_list.head?.getD versionZero)
      if highest = versionZero then none else some highest) :=
  select_highest_version_head_char m

/-- C3 (counterexample): an entry from a previous `check_for_updates`
call survives the next call.  With `infoTwo` already in the online list
and a fresh fetch returning only `infoOne`, the resulting online list is
`[infoTwo, infoOne]` — the stale entry remains, contradicting "no
entries from any previous call remain". -/
theorem c3_counterexample :
    (check_for_updates mC3 (some [infoOne])).online_versions_list
        = [infoTwo, infoOne]
      ∧ infoTwo ≠ infoOne := by
  decide

/-- C3 (amended): `check_for_updates` appends the policy-filtered
fetched entries to the existing online list and sorts the combined list
descending by version; every entry already present before the call is
still present afterwards (incremental merge, not replacement). -/
theorem c3_check_for_updates (m : BinaryManager)
    (fetched : Option (List VersionDownloadInfo)) :
    (check_for_updates m fetched).online_versions_list
        = (sortByVersion (m.online_versions_list
            ++ (fetched.getD []).filter
              (fun i => check_if_version_meet_requirements m i.version))).reverse
      ∧ ∀ x ∈ m.online_versions_list,
          x ∈ (check_for_updates m fetched).online_versions_list := by
  constructor
  · unfold check_for_updates
    rw [foldl_push_filter]
  · intro x hx
    unfold check_for_updates
    rw [foldl_push_filter]
    simp only [List.mem_reverse, mem_sortByVersion, List.mem_append]
    exact Or.inl hx

/-- C3 (witness for the amended claim, instantiating its universally
quantified persistence part at the counterexample state). -/
theorem c3_witness :
    infoTwo ∈ (check_for_updates mC3 (some [infoOne])).online_versions_list :=
  (c3_check_for_updates mC3 (some [infoOne])).2 infoTwo (by decide)

/-- C5 (confirmed): the policy check passes exactly when the semantic
version requirement matches and, if a network prerelease tag is
required, the version's prerelease string contains it as a substring. -/
theorem c5_check_if_version_meet_requirements (m : BinaryManager) (v : Version) :
    check_if_version_meet_requirements m v = true ↔
      (matchesReq m.version_requirements v = true
        ∧ (m.network_prerelease_tag = none
            ∨ ∃ (tag : String) (l r : List Char),
                m.network_prerelease_tag = some tag
                  ∧ v.pre.toList = l ++ tag.toList ++ r)) := by
  unfold check_if_version_meet_requirements
  rw [Bool.and_eq_true]
  constructor
  · rintro ⟨h1, h2⟩
    refine ⟨h1, ?_⟩
    cases htag : m.network_prerelease_tag with
    | none => exact Or.inl rfl
    | some tag =>
      rw [htag] at h2
      obtain ⟨l, r, hlr⟩ :=
        (seqContainsSub_iff v.pre.toList tag.toList).1 h2
      exact Or.inr ⟨tag, l, r, rfl, hlr⟩
  · rintro ⟨h1, h2⟩
    refine ⟨h1, ?_⟩
    cases htag : m.network_prerelease_tag with
    | none => rfl
    | some tag =>
      rcases h2 with h2 | ⟨tag2, l, r, htag2, hlr⟩
      · rw [htag] at h2; exact absurd h2 (by simp)
      · rw [htag] at htag2
        have heq : tag2 = tag := by injection htag2 with h; exact h.symm
        subst heq
        exact (seqContainsSub_iff v.pre.toList (String.toList tag2)).2 ⟨l, r, hlr⟩

/-- Requirement `=1.0.0-rc.1`, which accepts the prerelease version
`1.0.0-rc.1`. -/
def reqRc : VersionReq := [⟨.exact, 1, some 0, some 0, "rc.1"⟩]

/-- C5 (witness): a version whose prerelease contains the required tag
as a substring, under a requirement matching it, passes the check. -/
theorem c5_witness :
    check_if_version_meet_requirements
      { mBase with version_requirements := reqRc,
                   network_prerelease_tag := some "rc" }
      ⟨1, 0, 0, "rc.1"⟩ = true :=
  (c5_check_if_version_meet_requirements
      { mBase with version_requirements := reqRc,
                   network_prerelease_tag := some "rc" }
      ⟨1, 0, 0, "rc.1"⟩).2
    ⟨by decide, Or.inr ⟨"rc", [], ['.', '1'], rfl, by decide⟩⟩

/-- C6 (counterexample): with an unparseable requirements document the
loaded requirement degrades to `VersionReq::default()` (the empty
comparator list), but a prerelease version such as `1.0.0-alpha` does
NOT pass the range check under it — the `semver` crate rejects
prerelease versions unless some comparator with the same
major.minor.patch carries a prerelease tag, so "every version then
passes the semantic-version range part" is false. -/
theorem c6_counterexample :
    read_version_requirements "node" none (fun _ => none) = defaultVersionReq
      ∧ matchesReq (read_version_requirements "node" none (fun _ => none))
          ⟨1, 0, 0, "alpha"⟩ = false := by
  decide

/-- C6 (amended): if the requirements document is unparseable, lacks an
entry for the binary, or the entry is not a valid range expression, the
requirement degrades to the match-all default `*` (fail-open, logged);
under it exactly the versions WITHOUT a prerelease tag pass the
semantic-version range part of the policy check. -/
theorem c6_read_version_requirements (binary_name : String)
    (doc : Option (List (String × String))) (parse : String → Option VersionReq)
    (v : Version)
    (hdegrade : ((doc.getD []).lookup binary_name).bind parse = none) :
    read_version_requirements binary_name doc parse = defaultVersionReq
      ∧ (matchesReq (read_version_requirements binary_name doc parse) v = true
          ↔ v.pre = "") := by
  have hreq : read_version_requirements binary_name doc parse = defaultVersionReq := by
    unfold read_version_requirements
    rw [hdegrade]
  refine ⟨hreq, ?_⟩
  rw [hreq]
  unfold matchesReq defaultVersionReq
  simp

/-- C6 (witness): a missing entry degrades to the default requirement
and a release version (empty prerelease) passes it. -/
theorem c6_witness :
    read_version_requirements "node" none (fun _ => none) = defaultVersionReq
      ∧ (matchesReq (read_version_requirements "node" none (fun _ => none))
            ⟨1, 2, 3, ""⟩ = true
          ↔ (⟨1, 2, 3, ""⟩ : Version).pre = "") :=
  c6_read_version_requirements "node" none (fun _ => none) ⟨1, 2, 3, ""⟩ rfl

/-- One unrolling step of the retry loop. -/
theorem retryLoop_succ (m : BinaryManager) (envs : Nat → PipelineEnv)
    (hp : Bool) (v : Option Version) (r idx : Nat) (fs : FS) (le : DlError) :
    retryLoop m envs hp v (r + 1) idx fs le
      = (match (download_selected_version m (envs idx) hp fs v).result with
        | .ok => ⟨.ok, (download_selected_version m (envs idx) hp fs v).fs, 0,
            idx + 1⟩
        | .err e => retryLoop m envs hp v r (idx + 1)
            (download_selected_version m (envs idx) hp fs v).fs e) := rfl

/-- C4 (confirmed): `download_version_with_retries` runs the pipeline at
most 3 times sequentially (attempt `i` sees the world `envs i` and the
filesystem left by attempt `i-1`); it returns success with zero
telemetry events as soon as an attempt succeeds, and only when all 3
attempts fail does it emit exactly one telemetry event and return the
aggregated (last) failure. -/
theorem c4_download_version_with_retries (m : BinaryManager)
    (envs : Nat → PipelineEnv) (hp : Bool) (fs : FS) (v : Option Version) :
    ∀ a1, a1 = download_selected_version m (envs 0) hp fs v →
    ∀ a2, a2 = download_selected_version m (envs 1) hp a1.fs v →
    ∀ a3, a3 = download_selected_version m (envs 2) hp a2.fs v →
      (a1.result = .ok →
          download_version_with_retries m envs hp fs v = ⟨.ok, a1.fs, 0, 1⟩)
        ∧ (∀ e1, a1.result = .err e1 → a2.result = .ok →
            download_version_with_retries m envs hp fs v = ⟨.ok, a2.fs, 0, 2⟩)
        ∧ (∀ e1 e2, a1.result = .err e1 → a2.result = .err e2 →
            a3.result = .ok →
            download_version_with_retries m envs hp fs v = ⟨.ok, a3.fs, 0, 3⟩)
        ∧ (∀ e1 e2 e3, a1.result = .err e1 → a2.result = .err e2 →
            a3.result = .err e3 →
            download_version_with_retries m envs hp fs v
              = ⟨.err e3, a3.fs, 1, 3⟩) := by
  intro a1 ha1 a2 ha2 a3 ha3
  refine ⟨?_, ?_, ?_, ?_⟩
  · intro h1
    unfold download_version_with_retries
    rw [show (3 : Nat) = 2 + 1 from rfl, retryLoop_succ, ← ha1, h1]
  · intro e1 h1 h2
    unfold download_version_with_retries
    rw [show (3 : Nat) = 2 + 1 from rfl, retryLoop_succ, ← ha1, h1]
    dsimp only
    rw [show (2 : Nat) = 1 + 1 from rfl, retryLoop_succ, ← ha2, h2]
  · intro e1 e2 h1 h2 h3
    unfold download_version_with_retries
    rw [show (3 : Nat) = 2 + 1 from rfl, retryLoop_succ, ← ha1, h1]
    dsimp only
    rw [show (2 : Nat) = 1 + 1 from rfl, retryLoop_succ, ← ha2, h2]
    dsimp only
    rw [show (1 : Nat) = 0 + 1 from rfl, retryLoop_succ, ← ha3, h3]
  · intro e1 e2 e3 h1 h2 h3
    unfold download_version_with_retries
    rw [show (3 : Nat) = 2 + 1 from rfl, retryLoop_succ, ← ha1, h1]
    dsimp only
    rw [show (2 : Nat) = 1 + 1 from rfl, retryLoop_succ, ← ha2, h2]
    dsimp only
    rw [show (1 : Nat) = 0 + 1 from rfl, retryLoop_succ, ← ha3, h3]
    rfl

/-- C4 (witness): a deterministically failing pipeline (primary download
fails, no fallback) is attempted exactly 3 times, then returns the
aggregated failure with exactly one telemetry event. -/
theorem c4_witness :
    download_version_with_retries mC2 (fun _ => envPrimaryFail) false fsInit
        (some v100)
      = ⟨.err .downloadFailedNoFallback,
          [[], ["binaries"], ["binaries", "1.0.0"],
            ["binaries", "1.0.0", "in_progress"]], 1, 3⟩ := by
  have h := (c4_download_version_with_retries mC2 (fun _ => envPrimaryFail)
      false fsInit (some v100) _ rfl _ rfl _ rfl).2.2.2
    .downloadFailedNoFallback .downloadFailedNoFallback .downloadFailedNoFallback
    (by decide) (by decide) (by decide)
  exact h.trans (by decide)

/-- C10 (confirmed): with no version selected, or with a selected
version that has no entry in the online list, `download_selected_version`
fails before any filesystem mutation — the returned state equals the
input state and no progress stream was created. -/
theorem c10_download_preconditions (m : BinaryManager) (env : PipelineEnv)
    (hp : Bool) (fs : FS) (v : Version) :
    download_selected_version m env hp fs none
        = ⟨.err .noVersionSelected, fs, 0⟩
      ∧ (m.online_versions_list.find? (fun i => i.version == v) = none →
          download_selected_version m env hp fs (some v)
            = ⟨.err .versionInfoNotFound, fs, 0⟩) := by
  constructor
  · rfl
  · intro hfind
    unfold download_selected_version get_asset_for_selected_version
    dsimp only
    rw [hfind]

/-- C10 (witness): a manager with an empty online list fails the asset
lookup for `1.0.0` and leaves the filesystem untouched. -/
theorem c10_witness :
    download_selected_version mBase envPrimaryFail false fsInit (some v100)
      = ⟨.err .versionInfoNotFound, fsInit, 0⟩ :=
  (c10_download_preconditions mBase envPrimaryFail false fsInit v100).2 rfl

/-- C9 (confirmed): scanning the same disk twice appends a duplicate of
the qualifying set, so the local list after two runs has exactly the
same maximal elements as after one run, and `select_highest_version`
(which reads the head of the local list) is unchanged. -/
theorem c9_read_local_versions_idempotent (m : BinaryManager) (disk : Disk) :
    (∀ v, IsMaxOf v
          (read_local_versions m disk).local_aviailable_versions_list
        ↔ IsMaxOf v
          (read_local_versions (read_local_versions m disk)
              disk).local_aviailable_versions_list)
      ∧ select_highest_version
            (read_local_versions (read_local_versions m disk) disk)
          = select_highest_version (read_local_versions m disk) := by
  cases hbf : disk.binaryFolderOk with
  | false => simp [read_local_versions, hbf]
  | true =>
    cases hrd : disk.readDirOk with
    | false => simp [read_local_versions, hbf, hrd]
    | true =>
      simp only [read_local_versions, hbf, hrd, if_true,
        qualifyingVersions_update_local]
      constructor
      · intro v
        exact isMaxOf_append_subset v
          (m.local_aviailable_versions_list ++ qualifyingVersions m disk)
          (qualifyingVersions m disk)
          (fun x hx => List.mem_append_right _ hx)
      · rw [select_highest_version_head_char, select_highest_version_head_char]
        dsimp only
        rw [head?_append_self]

/-- C9 (witness): concrete disk with one qualifying version `1.0.0`:
after two scans `1.0.0` is still the maximum and the selection result
is unchanged. -/
theorem c9_witness :
    (IsMaxOf v100
        (read_local_versions mBase diskOne).local_aviailable_versions_list
      ↔ IsMaxOf v100
        (read_local_versions (read_local_versions mBase diskOne)
            diskOne).local_aviailable_versions_list)
      ∧ select_highest_version
            (read_local_versions (read_local_versions mBase diskOne) diskOne)
          = select_highest_version (read_local_versions mBase diskOne) :=
  ⟨(c9_read_local_versions_idempotent mBase diskOne).1 v100,
    (c9_read_local_versions_idempotent mBase diskOne).2⟩

theorem ensure_empty_directory_flags {env : PipelineEnv} (fs : FS) (d : FsPath)
    (hrm : env.destRemoveOk = true) (hcr : env.destCreateOk = true) :
    (ensure_empty_directory env fs d).1 = true := by
  unfold ensure_empty_directory
  split
  · simp [hrm, hcr]
  · simp [hcr]

theorem create_in_progress_flags {env : PipelineEnv} (fs : FS) (v : Version)
    (hbf : env.binaryFolderOk = true) (hip : env.inProgressCreateOk = true) :
    (create_in_progress_folder_for_selected_version env fs v).1 = true := by
  unfold create_in_progress_folder_for_selected_version
  simp [hbf, hip]

theorem pipelineTail_ok (m : BinaryManager) (env : PipelineEnv) (v : Version)
    (dd : FsPath) (fs : FS) (st : Nat)
    (hex : env.extractOk = true) (hbf : env.binaryFolderOk = true)
    (hck : m.should_validate_checksum = false
      ∨ (env.checksumDownloadOk = true ∧ env.expectedChecksumOk = true
          ∧ env.checksumComputeOk = true ∧ env.checksumMatches = true)) :
    (pipelineTail m env v dd fs st).result = .ok
      ∧ (pipelineTail m env v dd fs st).streams = st := by
  unfold pipelineTail validate_checksum
    delete_in_progress_folder_for_selected_version
  rcases hck with hval | ⟨h1, h2, h3, h4⟩
  · simp [hex, hbf, hval]
  · cases hval : m.should_validate_checksum
    · simp [hex, hbf, hval]
    · simp [hex, hbf, hval, h1, h2, h3, h4]

/-- C7 (confirmed): within one pipeline run that reaches the download
stage, if the primary download fails and the asset has a fallback URL,
the full download is retried once against the fallback with a freshly
created progress stream (two streams total when the caller asked for
progress), and success of that retry — together with the remaining
stages succeeding — yields overall pipeline success; if no fallback URL
exists the run fails with the download error. -/
theorem c7_fallback (m : BinaryManager) (env : PipelineEnv) (hp : Bool)
    (fs : FS) (v : Version) (asset : VersionAsset)
    (hasset : get_asset_for_selected_version m env v = .ok asset)
    (hbf : env.binaryFolderOk = true) (hrm : env.destRemoveOk = true)
    (hcr : env.destCreateOk = true) (hip : env.inProgressCreateOk = true)
    (hprim : env.primaryDownloadOk = false) :
    (asset.fallback_url = none →
        (download_selected_version m env hp fs (some v)).result
          = .err .downloadFailedNoFallback)
      ∧ (∀ u, asset.fallback_url = some u → env.fallbackDownloadOk = true →
          env.extractOk = true →
          (m.should_validate_checksum = false
            ∨ (env.checksumDownloadOk = true ∧ env.expectedChecksumOk = true
                ∧ env.checksumComputeOk = true ∧ env.checksumMatches = true)) →
          (download_selected_version m env hp fs (some v)).result = .ok
            ∧ (download_selected_version m env hp fs (some v)).streams
                = if hp then 2 else 0) := by
  unfold download_selected_version
  dsimp only
  rw [hasset]
  rw [hbf]
  cases hee : ensure_empty_directory env fs (destDirPath env.binaryFolder v) with
  | mk b1 fs1 =>
    have hb1 := ensure_empty_directory_flags fs
      (destDirPath env.binaryFolder v) hrm hcr
    rw [hee] at hb1
    dsimp only at hb1
    subst hb1
    cases hcc : create_in_progress_folder_for_selected_version env fs1 v with
    | mk b2 fs2 =>
      have hb2 := create_in_progress_flags fs1 v hbf hip
      rw [hcc] at hb2
      dsimp only at hb2
      subst hb2
      constructor
      · intro hfb
        simp only [hee, hcc, hprim, hfb, eq_self_iff_true, if_true,
          Bool.false_eq_true, if_false]
      · intro u hfb hfd hex hck
        simp only [hee, hcc, hprim, hfb, hfd, eq_self_iff_true, if_true,
          Bool.false_eq_true, if_false]
        obtain ⟨hres, hst⟩ := pipelineTail_ok m env v
          (destDirPath env.binaryFolder v)
          (addNode fs2 (inProgressZipPath env.binaryFolder v asset.name))
          ((if hp then 1 else 0) + (if hp then 1 else 0)) hex hbf hck
        refine ⟨hres, ?_⟩
        rw [hst]
        cases hp <;> rfl

def envPfFb : PipelineEnv := { envPrimaryFail with assetFound := some assetFb }

/-- C7 (witness): primary fails, fallback succeeds, everything else
succeeds: the run succeeds and two progress streams were created. -/
theorem c7_witness :
    (download_selected_version mFb envPfFb true fsInit (some v100)).result = .ok
      ∧ (download_selected_version mFb envPfFb true fsInit (some v100)).streams
          = 2 :=
  (c7_fallback mFb envPfFb true fsInit v100 assetFb rfl rfl rfl rfl rfl rfl).2
    "fb-url" rfl rfl rfl (Or.inl rfl)

/-- C2 (counterexample): a primary-download failure with no fallback
propagates WITHOUT destination-directory cleanup — the version's freshly
prepared installation directory still exists afterwards, contradicting
the claim that a download failure leaves no installation directory
behind. -/
theorem c2_counterexample :
    (download_selected_version mC2 envPrimaryFail false fsInit
        (some v100)).result = .err .downloadFailedNoFallback
      ∧ fsExists (download_selected_version mC2 envPrimaryFail false fsInit
            (some v100)).fs (destDirPath ["binaries"] v100) = true := by
  decide

/-- C2 (amended): only the checksum-stage failures (checksum-file
download failure, checksum computation error, checksum mismatch) remove
the version's installation directory before the error propagates;
download failures (primary failed and fallback absent or failed),
extraction failures, and expected-checksum retrieval failures leave the
prepared installation directory in place. -/
theorem c2_failure_cleanup (m : BinaryManager) (env : PipelineEnv) (hp : Bool)
    (fs : FS) (v : Version) (res : RunOutcome) (fsOut : FS) (stOut : Nat)
    (hrun : download_selected_version m env hp fs (some v) = ⟨res, fsOut, stOut⟩) :
    ((res = .err .checksumDownloadFailed ∨ res = .err .checksumComputeFailed
        ∨ res = .err .checksumMismatch)
      → fsExists fsOut (destDirPath env.binaryFolder v) = false)
    ∧ ((res = .err .downloadFailed ∨ res = .err .downloadFailedNoFallback
        ∨ res = .err .extractionFailed ∨ res = .err .expectedChecksumFailed)
      → fsExists fsOut (destDirPath env.binaryFolder v) = true) :=
  ⟨(download_selected_version_facts m env hp fs v res fsOut stOut hrun).1,
    (download_selected_version_facts m env hp fs v res fsOut stOut hrun).2.1⟩

/-- C2 (witness): a checksum mismatch removes `binaries/1.0.0`, while a
download failure leaves it on disk. -/
theorem c2_witness :
    fsExists (download_selected_version mC2ck envMismatch false fsInit
        (some v100)).fs (destDirPath ["binaries"] v100) = false
      ∧ fsExists (download_selected_version mC2 envPrimaryFail false fsInit
          (some v100)).fs (destDirPath ["binaries"] v100) = true := by
  constructor
  · exact (c2_failure_cleanup mC2ck envMismatch false fsInit v100
      (download_selected_version mC2ck envMismatch false fsInit (some v100)).result
      (download_selected_version mC2ck envMismatch false fsInit (some v100)).fs
      (download_selected_version mC2ck envMismatch false fsInit (some v100)).streams
      rfl).1 (by decide)
  · exact (c2_failure_cleanup mC2 envPrimaryFail false fsInit v100
      (download_selected_version mC2 envPrimaryFail false fsInit (some v100)).result
      (download_selected_version mC2 envPrimaryFail false fsInit (some v100)).fs
      (download_selected_version mC2 envPrimaryFail false fsInit (some v100)).streams
      rfl).2 (by decide)

/-- C8 (confirmed): after the pipeline's destination preparation and
staging-directory creation succeed (on an ancestor-closed tree), the
version's installation directory exists and its only descendants are
itself and the empty `in_progress` staging directory; the archive path
used by the download lies inside `in_progress`, not directly in the
installation directory; and a successful overall run removes the
staging directory. -/
theorem c8_staging_layout (m : BinaryManager) (env : PipelineEnv) (hp : Bool)
    (fs : FS) (v : Version) (aname : String)
    (hanc : ∀ q ∈ fs, ∀ i, q.take i ∈ fs) :
    ∀ fs1, ensure_empty_directory env fs (destDirPath env.binaryFolder v)
        = (true, fs1) →
    ∀ fs2, create_in_progress_folder_for_selected_version env fs1 v
        = (true, fs2) →
      fsExists fs2 (destDirPath env.binaryFolder v) = true
        ∧ (∀ q ∈ fs2, seqPrefixOf (destDirPath env.binaryFolder v) q = true →
            q = destDirPath env.binaryFolder v
              ∨ q = inProgressDirPath env.binaryFolder v)
        ∧ (∀ q ∈ fs2,
            seqPrefixOf (inProgressDirPath env.binaryFolder v) q = true →
            q = inProgressDirPath env.binaryFolder v)
        ∧ inProgressZipPath env.binaryFolder v aname
            = inProgressDirPath env.binaryFolder v ++ [aname]
        ∧ inProgressZipPath env.binaryFolder v aname
            ≠ destDirPath env.binaryFolder v ++ [aname]
        ∧ ((download_selected_version m env hp fs (some v)).result = .ok →
            fsExists (download_selected_version m env hp fs (some v)).fs
              (inProgressDirPath env.binaryFolder v) = false) := by
  intro fs1 hee fs2 hcc
  obtain ⟨hA, hB⟩ := create_in_progress_desc hcc
    (ensure_empty_directory_ok_no_desc hanc hee)
  refine ⟨?_, hA, hB, rfl, ?_, ?_⟩
  · exact create_in_progress_preserves hcc (seqPrefixOf_append_singleton _ _)
      (ensure_empty_directory_ok hee)
  · exact append_singleton_ne _ _ _
  · intro hok
    exact (download_selected_version_facts m env hp fs v
      (download_selected_version m env hp fs (some v)).result
      (download_selected_version m env hp fs (some v)).fs
      (download_selected_version m env hp fs (some v)).streams rfl).2.2 hok

/-- C8 (witness): the concrete prepared tree for version `1.0.0`, and a
fully successful run ends with the staging directory absent. -/
theorem c8_witness :
    fsExists [[], ["binaries"], ["binaries", "1.0.0"],
        ["binaries", "1.0.0", "in_progress"]]
      (destDirPath ["binaries"] v100) = true
      ∧ fsExists (download_selected_version mFb envAllOkFb false fsInit
          (some v100)).fs (inProgressDirPath ["binaries"] v100) = false := by
  have h := c8_staging_layout mFb envAllOkFb false fsInit v100 "node.zip"
    (by
      intro q hq i
      simp only [fsInit, List.mem_singleton] at hq
      subst hq
      simp [fsInit])
    [[], ["binaries"], ["binaries", "1.0.0"]] (by decide)
    [[], ["binaries"], ["binaries", "1.0.0"], ["binaries", "1.0.0", "in_progress"]]
    (by decide)
  exact ⟨h.1, h.2.2.2.2.2 (by decide)⟩

end Universe
